import Mathlib

/-!
# Retrievo — verification of the natural-language specification

Shallow embedding of the core subsystems of the Retrievo literature-review
RAG platform: metadata normalization, retrieval with optional cross-encoder
reranking, per-tenant collection isolation, term expansion, the agentic
synthesis controller, the citation verifier, the durable task tracker and
the webapp API client.  Pure functions are translated from the Python and
TypeScript sources; components whose implementation files are not part of
the source snapshot are modelled from the specification and marked
`Modelled from the spec:` in their doc comments.
-/

namespace Retrievo

/-! ## Webapp API client (`webapp/src/lib/api.ts`, `ApiClient.search`)

The TypeScript client builds a `URLSearchParams` query string, adding each
optional parameter only when its value is truthy in the JavaScript sense:
`0` and `undefined` are falsy for numbers, `""` and `undefined` for strings.
-/

/-- JavaScript truthiness of an optional number (`undefined` and `0` are falsy). -/
def jsTruthyNat : Option Nat → Bool
  | some n => n != 0
  | none => false

/-- JavaScript truthiness of an optional string (`undefined` and `""` are falsy). -/
def jsTruthyStr : Option String → Bool
  | some s => s != ""
  | none => false

/-- The parameter object accepted by `ApiClient.search`. -/
structure SearchParams where
  query : String
  n_results : Option Nat
  phase_filter : Option String
  topic_filter : Option String
  year_min : Option Nat
  year_max : Option Nat
  deriving DecidableEq, Repr

/-- One `searchParams.set(key, value.toString())` guarded by JS truthiness of a
number, as in `if (params.n_results) searchParams.set(...)`. -/
def natParam (key : String) (o : Option Nat) : List (String × String) :=
  match o with
  | some n => if n != 0 then [(key, toString n)] else []
  | none => []

/-- One `searchParams.set(key, value)` guarded by JS truthiness of a string,
as in `if (params.phase_filter) searchParams.set(...)`. -/
def strParam (key : String) (o : Option String) : List (String × String) :=
  match o with
  | some s => if s != "" then [(key, s)] else []
  | none => []

/-- The query-string pairs built by `ApiClient.search` (api.ts lines 126-143):
`query` is always set, and each optional parameter is set only when truthy. -/
def buildSearchParams (p : SearchParams) : List (String × String) :=
  [("query", p.query)]
    ++ natParam "n_results" p.n_results
    ++ strParam "phase_filter" p.phase_filter
    ++ strParam "topic_filter" p.topic_filter
    ++ natParam "year_min" p.year_min
    ++ natParam "year_max" p.year_max

/-- The keys present in the built query string. -/
def searchParamKeys (p : SearchParams) : List String :=
  (buildSearchParams p).map Prod.fst

/-! ## Term Expansion Table (§4.4) and normalization gating

`Modelled from the spec:` the body of the query-expansion routine
(`_expand_query` in `literature_rag.py`) is not part of the source snapshot;
only its configuration wiring is.  Per §4.4 the expansion returns the
original query first, then one variant per matched synonym group, capped at
the configured maximum; an empty or disabled table yields exactly the
original query.  The gating (`normalization.enable`) is documented in the
change log: term maps are loaded only when normalization is enabled. -/

/-- A term-expansion table: canonical concept names mapped to synonym phrases. -/
def TermTable := List (String × List String)

/-- Whether `pat` occurs as a contiguous sublist of `l`. -/
def containsSub (pat l : List Char) : Bool :=
  match l with
  | [] => pat.isEmpty
  | _ :: rest => pat.isPrefixOf l || containsSub pat rest

/-- Modelled from the spec: loading of term maps — maps are loaded only when
normalization is enabled (`normalization.enable`), otherwise the table is empty. -/
def loadTermMaps (enable : Bool) (tm : TermTable) : TermTable :=
  if enable then tm else []

/-- Modelled from the spec: a synonym group matches a query when one of its
phrases occurs in the query text. -/
def groupMatches (q : String) (g : String × List String) : Bool :=
  g.2.any (fun syn => containsSub syn.data q.data)

/-- Modelled from the spec (§4.4): `expand` returns the original query first,
then one rewritten variant per matched synonym group, capped at
`maxExpansions`; with an empty table it returns exactly `[query]`. -/
def expandQuery (table : TermTable) (maxExpansions : Nat) (q : String) : List String :=
  match table with
  | [] => [q]
  | _ =>
    let matched := table.filter (groupMatches q)
    let variants := (matched.map (fun g => q ++ " " ++ g.1)).take maxExpansions
    q :: variants

/-! ## Metadata Normalizer (§4.1)

Embeds `LiteratureReviewRAG._normalize_metadata` (literature_rag.py, change
log lines 895-922).  Python string primitives are modelled on `List Char`:
`str.strip` drops whitespace at both ends, `str.lower` lowers basic latin
letters (DOI strings are ASCII, matching core `Char.toLower`),
`str.replace(pat, "")` removes left-to-right non-overlapping occurrences,
and `str.split()` splits on whitespace runs discarding empty pieces. -/

/-- Python `str.strip` on a character list. -/
def trimChars (l : List Char) : List Char :=
  ((l.dropWhile Char.isWhitespace).reverse.dropWhile Char.isWhitespace).reverse

/-- Python `str.strip`. -/
def pyStrip (s : String) : String := String.mk (trimChars s.data)

/-- Python `str.lower` on the ASCII range. -/
def pyLower (s : String) : String := String.mk (s.data.map Char.toLower)

/-- The DOI resolver URL removed by `_normalize_metadata`. -/
def doiPat : List Char := "https://doi.org/".data

/-- Worker for Python `str.replace("https://doi.org/", "")`: scans left to
right; on a match it skips the remaining `doiPat.length - 1` characters of
the occurrence (the counter argument) and resumes scanning after it. -/
def removeDoiPatAux : List Char → Nat → List Char
  | [], _ => []
  | _ :: rest, Nat.succ k => removeDoiPatAux rest k
  | c :: rest, 0 =>
    if doiPat.isPrefixOf (c :: rest) then removeDoiPatAux rest (doiPat.length - 1)
    else c :: removeDoiPatAux rest 0

/-- Python `str.replace("https://doi.org/", "")`: removes every
left-to-right, non-overlapping occurrence of the pattern. -/
def removeDoiPat (l : List Char) : List Char := removeDoiPatAux l 0

/-- Python `doi.replace("https://doi.org/", "")`. -/
def stripDoiResolver (s : String) : String := String.mk (removeDoiPat s.data)

/-- Python `str.split()` worker: `acc` holds the current word reversed. -/
def splitWsAux : List Char → List Char → List (List Char)
  | [], acc => if acc.isEmpty then [] else [acc.reverse]
  | c :: rest, acc =>
    if c.isWhitespace then
      if acc.isEmpty then splitWsAux rest [] else acc.reverse :: splitWsAux rest []
    else splitWsAux rest (c :: acc)

/-- The words of Python `str.split()`. -/
def splitWs (l : List Char) : List (List Char) := splitWsAux l []

/-- Python `" ".join(words)`: words joined by single spaces. -/
def joinWords : List (List Char) → List Char
  | [] => []
  | [w] => w
  | w :: ws => w ++ ' ' :: joinWords ws

/-- Python `" ".join(s.split())` on a character list. -/
def collapseWsChars (l : List Char) : List Char := joinWords (splitWs l)

/-- Python `" ".join(str(title).split())` — collapse whitespace runs. -/
def collapseWs (s : String) : String := String.mk (collapseWsChars s.data)

/-- Python `", ".join(a for a in authors if a)` — join, skipping falsy entries. -/
def joinAuthors (xs : List String) : String :=
  String.intercalate ", " (xs.filter (fun a => a != ""))

/-- Python `int(s)` on a string: strips whitespace, then parses an optionally
signed decimal numeral; `none` models the `ValueError` on parse failure. -/
def pyIntOfString (s : String) : Option Int := (pyStrip s).toInt?

/-- The `authors` field of a raw metadata record: absent/`None`, a string, or
a list of author strings (the shapes produced by the extraction pipeline). -/
inductive AuthorsVal
  | vNone
  | vStr (s : String)
  | vList (xs : List String)
  deriving DecidableEq, Repr

/-- The `year` field of a raw metadata record: absent/`None`, already an
integer, or a string to be coerced. -/
inductive YearVal
  | vNone
  | vInt (n : Int)
  | vStr (s : String)
  deriving DecidableEq, Repr

/-- A raw metadata record, restricted to the four fields the normalizer
touches; all other dictionary keys are copied unchanged by
`metadata.copy()` and play no role.  `doi`/`title` use `none` for an
absent or `None` entry; the empty string is a distinct falsy value. -/
structure Metadata where
  authors : AuthorsVal
  year : YearVal
  doi : Option String
  title : Option String
  deriving DecidableEq, Repr

/-- The `authors` step: `", ".join(a for a in authors if a)` for lists, else
`str(authors).strip()` for non-`None` values. -/
def normAuthors : AuthorsVal → AuthorsVal
  | .vList xs => .vStr (joinAuthors xs)
  | .vStr s => .vStr (pyStrip s)
  | .vNone => .vNone

/-- The `year` step: `int(year)` guarded by `year is not None`, with
`TypeError`/`ValueError` caught and mapped to `None`. -/
def normYear : YearVal → YearVal
  | .vNone => .vNone
  | .vInt n => .vInt n
  | .vStr s =>
    match pyIntOfString s with
    | some n => .vInt n
    | none => .vNone

/-- The `doi` step: `str(doi).strip().lower().replace("https://doi.org/", "")`
guarded by truthiness of `doi`. -/
def normDoi : Option String → Option String
  | none => none
  | some s => if s = "" then some "" else some (stripDoiResolver (pyLower (pyStrip s)))

/-- The `title` step: `" ".join(str(title).split())` guarded by truthiness. -/
def normTitle : Option String → Option String
  | none => none
  | some s => if s = "" then some "" else some (collapseWs s)

/-- The whole of `LiteratureReviewRAG._normalize_metadata`.  The Python
`if not metadata: return metadata` early return coincides with the
field-wise transform on the empty record, where every step is the
identity, so it needs no separate branch. -/
def normalizeMetadata (m : Metadata) : Metadata :=
  { authors := normAuthors m.authors
    year := normYear m.year
    doi := normDoi m.doi
    title := normTitle m.title }

/-- Python exception classes relevant to the normalizer; `otherErr` stands
for any exception outside the caught `(TypeError, ValueError)` tuple. -/
inductive PyErr
  | typeError
  | valueError
  | otherErr
  deriving DecidableEq, Repr

/-- Python `int(year)` with its exception behavior explicit: a bad string
raises `ValueError`; a non-numeric type raises `TypeError`. -/
def pyIntE : YearVal → Except PyErr Int
  | .vInt n => .ok n
  | .vStr s =>
    match pyIntOfString s with
    | some n => .ok n
    | none => .error .valueError
  | .vNone => .error .typeError

/-- The `year` step with the `try/except (TypeError, ValueError)` explicit:
only those two exception classes are caught and turned into `None`. -/
def normYearE : YearVal → Except PyErr YearVal
  | .vNone => .ok .vNone
  | y =>
    match pyIntE y with
    | .ok n => .ok (.vInt n)
    | .error .typeError => .ok .vNone
    | .error .valueError => .ok .vNone
    | .error e => .error e

/-- Exception-explicit `_normalize_metadata`: the year coercion is the only
step that can raise, and its handler catches the raised classes. -/
def normalizeMetadataE (m : Metadata) : Except PyErr Metadata := do
  let y ← normYearE m.year
  pure { authors := normAuthors m.authors, year := y, doi := normDoi m.doi,
         title := normTitle m.title }

/-! ## Retrieval Engine (§4.5): `LiteratureReviewRAG.query` / `_rerank_results`

Embedded from the change log excerpts (lines 924-947 and 959-979): the
candidate count is `max(n_results, rerank_top_k)` when reranking is enabled
and `n_results` otherwise; reranking scores each (query, chunk-text) pair
with the cross-encoder, stable-sorts descending by score and truncates to
`n_results`.  Cross-encoder scores and vector distances are modelled as
integers (any linear order; only comparisons matter). -/

/-- A retrieval candidate: chunk text, owning document, vector distance. -/
structure Candidate where
  doc : String
  docId : String
  dist : Int
  deriving DecidableEq, Repr

/-- The similarity score `1 - distance` computed by `_postprocess_results`
(change log line 956). -/
def vectorScore (c : Candidate) : Int := 1 - c.dist

/-- `candidate_k = max(n_results, rerank_top_k) if enabled else n_results`. -/
def candidateK (enabled : Bool) (rerankTopK nResults : Nat) : Nat :=
  if enabled then max nResults rerankTopK else nResults

/-- `self.collection.query(..., n_results=candidate_k)`: ChromaDB returns up
to `n` nearest candidates of the collection, distance-ordered. -/
def collectionQuery (coll : List Candidate) (n : Nat) : List Candidate :=
  coll.take n

/-- `_rerank_results`: with no candidates the results pass through; else each
chunk text is scored against the query (`scores` abstracts
`reranker.score`), re-sorted descending by that score (Python `sort` with
`reverse=True` is stable), and truncated to `n_results`. -/
def rerankResults (scores : String → Int) (results : List Candidate)
    (nResults : Nat) : List Candidate :=
  match results with
  | [] => results
  | _ =>
    (results.mergeSort (fun a b => decide (scores b.doc ≤ scores a.doc))).take nResults

/-- The retrieval core of `LiteratureReviewRAG.query`: fetch `candidate_k`
candidates, then rerank exactly when the reranker is enabled
(`_get_reranker` returns `None` iff reranking is disabled). -/
def literatureQuery (enabled : Bool) (rerankTopK nResults : Nat)
    (scores : String → Int) (coll : List Candidate) : List Candidate :=
  let results := collectionQuery coll (candidateK enabled rerankTopK nResults)
  if enabled then rerankResults scores results nResults else results

/-- The rerank step with its failure made explicit: `error` models the
cross-encoder dependency being unavailable or raising during scoring. -/
def rerankResultsE (scoreE : Except Unit (String → Int))
    (results : List Candidate) (nResults : Nat) : Except Unit (List Candidate) :=
  match scoreE with
  | .ok f => .ok (rerankResults f results nResults)
  | .error e => .error e

/-- The retrieval core with the surrounding `try/except`.  Modelled from the
spec: the body of the `except` handler (change log line 979) is not in the
source snapshot; per §4.5/§7(b) it degrades to vector-distance-only ranking
truncated to `n_results` instead of propagating the exception. -/
def literatureQueryE (enabled : Bool) (rerankTopK nResults : Nat)
    (scoreE : Except Unit (String → Int)) (coll : List Candidate) :
    Except Unit (List Candidate) :=
  let results := collectionQuery coll (candidateK enabled rerankTopK nResults)
  match (if enabled then rerankResultsE scoreE results nResults else .ok results) with
  | .ok r => .ok r
  | .error _ => .ok (results.take nResults)

/-- The retrieval core including the embedding step.  In the source,
`query_embedding = self.embeddings.embed_query(expanded_query)` (change log
line 960) runs before — outside — the `try` block opened at line 967, so a
failure of the embedding dependency propagates out of the retrieval routine
instead of reaching the handler; only the query/rerank block is guarded. -/
def literatureQueryFullE (embedE : Except Unit Unit) (enabled : Bool)
    (rerankTopK nResults : Nat) (scoreE : Except Unit (String → Int))
    (coll : List Candidate) : Except Unit (List Candidate) :=
  match embedE with
  | .error e => .error e
  | .ok _ => literatureQueryE enabled rerankTopK nResults scoreE coll

/-! ## Collection Store (§4.3): per-job collections and isolation

`JobCollectionRAG` holds a single collection handle and queries only it
(change log lines 836-866); each job gets a dedicated ChromaDB collection
(`job_{id}_{uuid}`).  Modelled from the spec: the store itself is external
(ChromaDB), so its named-collection semantics — a mapping from collection
name to an isolated chunk list — is taken from §4.3. -/

/-- A chunk record written into a collection. -/
structure Chunk where
  docId : String
  text : String
  dist : Int
  deriving DecidableEq, Repr

/-- Modelled from the spec: the vector store as a mapping from collection
name to that collection's chunks. -/
def Store := String → List Chunk

/-- The store with no collections populated. -/
def emptyStore : Store := fun _ => []

/-- An ingestion: the chunks of one upload written to one named collection. -/
structure IngestOp where
  coll : String
  chunks : List Chunk
  deriving DecidableEq, Repr

/-- `upsert(handle, chunks)`: append chunks under one collection name. -/
def upsert (st : Store) (h : String) (cs : List Chunk) : Store :=
  fun n => if n = h then st n ++ cs else st n

/-- Replay a sequence of ingestions over the empty store. -/
def applyOps : List IngestOp → Store
  | [] => emptyStore
  | op :: rest => upsert (applyOps rest) op.coll op.chunks

/-- All chunks ever ingested into collection `n`. -/
def ingestedInto (ops : List IngestOp) (n : String) : List Chunk :=
  ((ops.filter (fun op => op.coll == n)).map IngestOp.chunks).flatten

/-- `query(handle, embedding, k, filter)`: reads only the handle's own
collection, applies the metadata filter, returns up to `k` candidates. -/
def queryColl (st : Store) (h : String) (filt : Chunk → Bool) (k : Nat) :
    List Chunk :=
  ((st h).filter filt).take k

/-! ## Agentic Synthesis Controller (§4.7)

Modelled from the spec: `agentic.py` is not in the source snapshot; only its
configuration keys (`max_retrieval_retries`, `max_regeneration_retries`,
`evaluation_sufficient`, `citation_accuracy_min`, change log lines
1335-1351) and its pipeline statistics appear.  The controller is §4.7's
state machine: Classify → Retrieve → Generate → Evaluate, with
RetryRetrieve/RetryGenerate gated by the remaining budgets, and Done/Fail
terminal. -/

/-- The agentic retry budgets and thresholds (configuration, not hard-coded). -/
structure AgenticConfig where
  maxRetrievalRetries : Nat
  maxRegenerationRetries : Nat
  evaluationSufficient : Int
  citationAccuracyMin : Int
  deriving DecidableEq, Repr

/-- The environment the controller observes: the groundedness score of the
`i`-th retrieval attempt, and the citation accuracy of the `j`-th generation
grounded on the `i`-th retrieval. -/
structure AgenticEnv where
  retrievalScore : Nat → Int
  citationScore : Nat → Nat → Int

/-- The transitions of the §4.7 state machine. -/
inductive AgenticStep
  | classifyT
  | retrieveT
  | generateT
  | evaluateT
  | retryRetrieveT
  | retryGenerateT
  | doneT
  | failT
  deriving DecidableEq, Repr

/-- Modelled from the spec: one Retrieve → Generate → Evaluate round.
Insufficient grounding triggers RetryRetrieve while the retrieval budget
lasts; sufficient grounding with poor citation accuracy triggers
RetryGenerate while the generation budget lasts; otherwise Done.  A needed
retry with an exhausted budget is Fail. -/
def agenticLoop (cfg : AgenticConfig) (env : AgenticEnv) :
    Nat → Nat → Nat → Nat → List AgenticStep
  | rAttempt, gAttempt, rBudget, gBudget =>
    let round := [AgenticStep.retrieveT, AgenticStep.generateT, AgenticStep.evaluateT]
    if env.retrievalScore rAttempt < cfg.evaluationSufficient then
      match rBudget with
      | 0 => round ++ [AgenticStep.failT]
      | Nat.succ r2 =>
        round ++ AgenticStep.retryRetrieveT
          :: agenticLoop cfg env (rAttempt + 1) gAttempt r2 gBudget
    else if env.citationScore rAttempt gAttempt < cfg.citationAccuracyMin then
      match gBudget with
      | 0 => round ++ [AgenticStep.failT]
      | Nat.succ g2 =>
        round ++ AgenticStep.retryGenerateT
          :: agenticLoop cfg env rAttempt (gAttempt + 1) rBudget g2
    else round ++ [AgenticStep.doneT]
termination_by _ _ rBudget gBudget => (rBudget, gBudget)

/-- A full run: Classify, then rounds under the configured budgets. -/
def agenticRun (cfg : AgenticConfig) (env : AgenticEnv) : List AgenticStep :=
  AgenticStep.classifyT
    :: agenticLoop cfg env 0 0 cfg.maxRetrievalRetries cfg.maxRegenerationRetries

/-- A step is terminal iff it is Done or Fail. -/
def isTerminal : AgenticStep → Bool
  | .doneT => true
  | .failT => true
  | _ => false

/-! ## Citation Registry & Verifier (§4.6)

Modelled from the spec: the notebook's `verify_citation` implementation is
only described in the source snapshot (recording script cells 30-31), so the
verifier follows §4.6: resolve the (author substring, year) pair to a unique
registered document — zero or multiple matches report not-found — then
require a PageIndex entry for the claimed page.  The quote-matching arm is
exercised only when a quote is supplied and plays no role in the claim. -/

/-- A registered document: identity, author string, year, APA citation. -/
structure RegDoc where
  docId : String
  authors : String
  year : Int
  citation : String
  deriving DecidableEq, Repr

/-- A PageIndex entry: (document, page number) → full page text. -/
structure PageEntry where
  docId : String
  page : Nat
  text : String
  deriving DecidableEq, Repr

/-- The citation registry: document metadata plus the page-level index. -/
structure Registry where
  docs : List RegDoc
  pages : List PageEntry
  deriving DecidableEq, Repr

/-- The verifier's report.  `found` models the `exists` field of the result;
a not-found report carries no substitute citation. -/
structure VerifyResult where
  found : Bool
  citation : String
  preview : String
  matchedExactly : Bool
  deriving DecidableEq, Repr

/-- The (author substring, year) resolution predicate. -/
def docMatches (author : String) (year : Int) (d : RegDoc) : Bool :=
  containsSub author.data d.authors.data && d.year == year

/-- PageIndex lookup for one (document, page) pair. -/
def lookupPage (pages : List PageEntry) (dId : String) (page : Nat) : Option String :=
  (pages.find? (fun e => e.docId == dId && e.page == page)).map PageEntry.text

/-- Modelled from the spec (§4.6): `verify(author, year, page)` without a
quote.  It only reports — a failed resolution or missing page yields
`exists=false` with empty citation/preview, never an altered citation. -/
def verifyCitation (reg : Registry) (author : String) (year : Int) (page : Nat) :
    VerifyResult :=
  match reg.docs.filter (docMatches author year) with
  | [d] =>
    match lookupPage reg.pages d.docId page with
    | some txt =>
      { found := true, citation := d.citation,
        preview := String.mk (txt.data.take 200), matchedExactly := true }
    | none => { found := false, citation := "", preview := "", matchedExactly := false }
  | _ => { found := false, citation := "", preview := "", matchedExactly := false }

/-- The registered document of the spec's end-to-end scenarios
(`2012_Thelen_Varieties.pdf`). -/
def thelenDoc : RegDoc :=
  { docId := "thelen2012", authors := "Kathleen Thelen", year := 2012,
    citation := "Thelen, K. (2012). Varieties of Liberalization." }

/-- The registry of the spec's end-to-end scenarios: the two-page Thelen
2012 document with its page index. -/
def thelenRegistry : Registry :=
  { docs := [thelenDoc],
    pages := [⟨"thelen2012", 1, "Varieties of capitalism shape regional adjustment."⟩,
              ⟨"thelen2012", 2, "Institutional complementarities matter."⟩] }

/-! ## Durable Task Tracker (§4.8)

Modelled from the spec: the DB-backed `tasks.py` bodies are not in the
source snapshot (the change log records only that the in-memory `TaskStore`
was replaced by the durable `upload_tasks` table, lines 276-282).  The
tracker is modelled as operations over the durable table alone — there is no
process-memory state, which is exactly what makes `get` restart-safe — and
`update` persists the new snapshot with progress clamped so that it never
regresses. -/

/-- Task lifecycle states. -/
inductive TaskStatus
  | queued
  | running
  | completed
  | failed
  deriving DecidableEq, Repr

/-- A persisted status snapshot. -/
structure TaskRecord where
  status : TaskStatus
  progress : Nat
  message : String
  deriving DecidableEq, Repr

/-- Modelled from the spec: the durable `upload_tasks` table, keyed by task
id.  It is the only state of the tracker. -/
def TaskDB := List (Nat × TaskRecord)

/-- `create() -> taskId`: insert a fresh queued record. -/
def createTask (db : TaskDB) (id : Nat) : TaskDB :=
  (id, { status := .queued, progress := 0, message := "" }) :: db

/-- `get(taskId)`: read the persisted snapshot from the durable table. -/
def getTask (db : TaskDB) (id : Nat) : Option TaskRecord :=
  (db.find? (fun e => e.1 == id)).map Prod.snd

/-- Modelled from the spec: `update(taskId, status, progress, message)`
persists the new snapshot; progress is clamped to `max old new` so that
update calls are monotonic in progress (never regress silently). -/
def updateTask (db : TaskDB) (id : Nat) (st : TaskStatus) (p : Nat)
    (msg : String) : TaskDB :=
  db.map (fun e =>
    if e.1 == id then
      (e.1, { status := st, progress := max e.2.progress p, message := msg })
    else e)

end Retrievo

namespace Retrievo

/-- Keys contributed by a number-valued parameter segment. -/
theorem mem_natParam_keys (k key : String) (o : Option Nat) :
    k ∈ (natParam key o).map Prod.fst ↔ k = key ∧ ∃ n, o = some n ∧ n ≠ 0 := by
  cases o with
  | none => simp [natParam]
  | some n =>
    by_cases h : n = 0 <;> simp [natParam, h]

/-- Keys contributed by a string-valued parameter segment. -/
theorem mem_strParam_keys (k key : String) (o : Option String) :
    k ∈ (strParam key o).map Prod.fst ↔ k = key ∧ ∃ s, o = some s ∧ s ≠ "" := by
  cases o with
  | none => simp [strParam]
  | some s =>
    by_cases h : s = "" <;> simp [strParam, h]

/-- C10: `ApiClient.search` drops every falsy parameter: the built query
string always carries `query`, and carries `n_results`, `phase_filter`,
`topic_filter`, `year_min`, `year_max` exactly when the corresponding value
is present and non-zero (numbers) or non-empty (strings); in particular a
caller passing `year_min = 0` gets no year filter at all. -/
theorem search_omits_falsy_params (p : SearchParams) :
    "query" ∈ searchParamKeys p
    ∧ ("n_results" ∈ searchParamKeys p ↔ ∃ n, p.n_results = some n ∧ n ≠ 0)
    ∧ ("phase_filter" ∈ searchParamKeys p ↔ ∃ s, p.phase_filter = some s ∧ s ≠ "")
    ∧ ("topic_filter" ∈ searchParamKeys p ↔ ∃ s, p.topic_filter = some s ∧ s ≠ "")
    ∧ ("year_min" ∈ searchParamKeys p ↔ ∃ n, p.year_min = some n ∧ n ≠ 0)
    ∧ ("year_max" ∈ searchParamKeys p ↔ ∃ n, p.year_max = some n ∧ n ≠ 0) := by
  have hmem : ∀ k : String, k ∈ searchParamKeys p ↔
      k = "query" ∨ (k = "n_results" ∧ ∃ n, p.n_results = some n ∧ n ≠ 0)
      ∨ (k = "phase_filter" ∧ ∃ s, p.phase_filter = some s ∧ s ≠ "")
      ∨ (k = "topic_filter" ∧ ∃ s, p.topic_filter = some s ∧ s ≠ "")
      ∨ (k = "year_min" ∧ ∃ n, p.year_min = some n ∧ n ≠ 0)
      ∨ (k = "year_max" ∧ ∃ n, p.year_max = some n ∧ n ≠ 0) := by
    intro k
    simp only [searchParamKeys, buildSearchParams, List.map_append, List.mem_append,
      mem_natParam_keys, mem_strParam_keys, List.map_cons, List.map_nil,
      List.mem_singleton, or_assoc]
  refine ⟨?_, ?_, ?_, ?_, ?_, ?_⟩ <;> rw [hmem] <;> simp

/-- C5: with term expansion disabled for a collection, or with an empty term
table, `expand` returns exactly the one-element list holding the original
query. -/
theorem expand_disabled_or_empty_is_identity (enable : Bool) (tm : TermTable)
    (maxExpansions : Nat) (q : String) (h : enable = false ∨ tm = []) :
    expandQuery (loadTermMaps enable tm) maxExpansions q = [q] := by
  rcases h with h | h <;> simp [loadTermMaps, expandQuery, h]

/-- Witness for C5 at the spec's end-to-end scenario 4:
`expand("ruhrgebiet transition", table = {})` with expansion disabled
returns exactly `["ruhrgebiet transition"]`. -/
theorem expand_disabled_or_empty_is_identity_witness :
    expandQuery (loadTermMaps false [("regional", ["ruhr valley"])]) 2
      "ruhrgebiet transition" = ["ruhrgebiet transition"] :=
  expand_disabled_or_empty_is_identity false [("regional", ["ruhr valley"])] 2
    "ruhrgebiet transition" (Or.inl rfl)

/-! ### Lemmas about the Python string primitives -/

/-- Trimming both ends is right-trim after left-trim. -/
theorem trimChars_eq_rdrop (l : List Char) :
    trimChars l = List.rdropWhile Char.isWhitespace (l.dropWhile Char.isWhitespace) := rfl

/-- The head surviving a `dropWhile` fails the dropped predicate. -/
theorem head_of_dropWhile_false (p : Char → Bool) (l : List Char) :
    ∀ c, (l.dropWhile p).head? = some c → p c = false := by
  induction l with
  | nil => intro c h; simp at h
  | cons a rest ih =>
    intro c h
    rw [List.dropWhile_cons] at h
    by_cases hp : p a
    · rw [if_pos hp] at h; exact ih c h
    · rw [if_neg hp] at h
      simp only [List.head?_cons, Option.some.injEq] at h
      subst h
      simpa using hp

/-- Left-trimming after a full trim is a no-op. -/
theorem dropWhile_trim_fix (l : List Char) :
    List.dropWhile Char.isWhitespace
      (List.rdropWhile Char.isWhitespace (l.dropWhile Char.isWhitespace))
      = List.rdropWhile Char.isWhitespace (l.dropWhile Char.isWhitespace) := by
  obtain ⟨t, ht⟩ :=
    List.rdropWhile_prefix Char.isWhitespace (l.dropWhile Char.isWhitespace)
  cases hB : List.rdropWhile Char.isWhitespace (l.dropWhile Char.isWhitespace) with
  | nil => simp
  | cons b bs =>
    rw [hB] at ht
    have hb : (l.dropWhile Char.isWhitespace).head? = some b := by
      rw [← ht]; rfl
    have hhead := head_of_dropWhile_false Char.isWhitespace l b hb
    rw [List.dropWhile_cons, hhead]
    simp

/-- Python `str.strip` is idempotent. -/
theorem trimChars_idem (l : List Char) : trimChars (trimChars l) = trimChars l := by
  rw [trimChars_eq_rdrop, trimChars_eq_rdrop, dropWhile_trim_fix,
    List.rdropWhile_idempotent]

/-- String-level idempotence of `str.strip`. -/
theorem pyStrip_idem (s : String) : pyStrip (pyStrip s) = pyStrip s := by
  simp [pyStrip, trimChars_idem]

/-- Evaluation of `Char.ofNat` below the surrogate range. -/
theorem char_toNat_ofNat_of_lt {n : Nat} (h : n < 55296) : (Char.ofNat n).toNat = n := by
  have hv : Nat.isValidChar n := Or.inl h
  simp [Char.ofNat, hv, Char.ofNatAux, Char.toNat, UInt32.toNat, BitVec.toNat_ofNatLt]

/-- Python `str.lower` is idempotent character by character. -/
theorem toLower_toLower (c : Char) : c.toLower.toLower = c.toLower := by
  unfold Char.toLower
  by_cases h : c.toNat ≥ 65 ∧ c.toNat ≤ 90
  · rw [if_pos h]
    have h32 : (Char.ofNat (c.toNat + 32)).toNat = c.toNat + 32 :=
      char_toNat_ofNat_of_lt (by omega)
    rw [if_neg (by rw [h32]; omega)]
  · rw [if_neg h, if_neg h]

/-- Every character the replacement worker keeps comes from its input. -/
theorem mem_of_mem_removeDoiPatAux (l : List Char) :
    ∀ k c, c ∈ removeDoiPatAux l k → c ∈ l := by
  induction l with
  | nil => intro k c h; simp [removeDoiPatAux] at h
  | cons a rest ih =>
    intro k c h
    cases k with
    | succ k2 =>
      rw [removeDoiPatAux] at h
      exact List.mem_cons_of_mem a (ih k2 c h)
    | zero =>
      by_cases hp : doiPat.isPrefixOf (a :: rest) = true
      · rw [removeDoiPatAux, if_pos hp] at h
        exact List.mem_cons_of_mem a (ih _ c h)
      · rw [removeDoiPatAux, if_neg hp] at h
        rcases List.mem_cons.mp h with h2 | h2
        · simp [h2]
        · exact List.mem_cons_of_mem a (ih 0 c h2)

/-- Every character of the DOI-prefix-removal output comes from the input. -/
theorem mem_of_mem_removeDoiPat (l : List Char) :
    ∀ c ∈ removeDoiPat l, c ∈ l :=
  fun c hc => mem_of_mem_removeDoiPatAux l 0 c hc

/-- If the resolver prefix occurs nowhere in `l`, removal is the identity. -/
theorem removeDoiPat_of_not_contains (l : List Char)
    (h : containsSub doiPat l = false) : removeDoiPat l = l := by
  induction l with
  | nil => rfl
  | cons c rest ih =>
    rw [containsSub] at h
    simp only [Bool.or_eq_false_iff] at h
    rw [removeDoiPat, removeDoiPatAux, if_neg (by simp [h.1])]
    rw [show removeDoiPatAux rest 0 = removeDoiPat rest from rfl, ih h.2]

/-- Lowering fixes the output of `strip`-`lower`-`replace`. -/
theorem pyLower_fix_normDoi (x : String) :
    pyLower (stripDoiResolver (pyLower x)) = stripDoiResolver (pyLower x) := by
  have hmem : ∀ c ∈ removeDoiPat ((pyLower x).data), c.toLower = c := by
    intro c hc
    have : c ∈ (pyLower x).data := mem_of_mem_removeDoiPat _ c hc
    simp only [pyLower] at this
    obtain ⟨d, _, rfl⟩ := List.mem_map.mp this
    exact toLower_toLower d
  simp only [pyLower, stripDoiResolver]
  congr 1
  calc (String.mk (removeDoiPat ((pyLower x).data))).data.map Char.toLower
      = (removeDoiPat ((pyLower x).data)).map Char.toLower := by
        simp only [pyLower]
    _ = (removeDoiPat ((pyLower x).data)).map id := List.map_congr_left hmem
    _ = removeDoiPat ((pyLower x).data) := List.map_id _

/-- Invariant of the split worker: with a whitespace-free accumulator, every
word it emits is nonempty and whitespace-free. -/
theorem splitWsAux_words (l : List Char) :
    ∀ acc, (∀ c ∈ acc, c.isWhitespace = false) →
      ∀ w ∈ splitWsAux l acc, w ≠ [] ∧ ∀ c ∈ w, c.isWhitespace = false := by
  induction l with
  | nil =>
    intro acc hacc w hw
    rw [splitWsAux] at hw
    by_cases h : acc.isEmpty
    · rw [if_pos h] at hw; simp at hw
    · rw [if_neg h] at hw
      simp only [List.mem_singleton] at hw
      subst hw
      refine ⟨?_, ?_⟩
      · simp only [ne_eq, List.reverse_eq_nil_iff]
        simpa [List.isEmpty_iff] using h
      · intro c hc; exact hacc c (List.mem_reverse.mp hc)
  | cons a rest ih =>
    intro acc hacc w hw
    rw [splitWsAux] at hw
    by_cases ha : a.isWhitespace
    · rw [if_pos ha] at hw
      by_cases he : acc.isEmpty
      · rw [if_pos he] at hw; exact ih [] (by simp) w hw
      · rw [if_neg he] at hw
        rcases List.mem_cons.mp hw with h | h
        · subst h
          refine ⟨?_, ?_⟩
          · simp only [ne_eq, List.reverse_eq_nil_iff]
            simpa [List.isEmpty_iff] using he
          · intro c hc; exact hacc c (List.mem_reverse.mp hc)
        · exact ih [] (by simp) w h
    · rw [if_neg ha] at hw
      refine ih (a :: acc) ?_ w hw
      intro c hc
      rcases List.mem_cons.mp hc with h | h
      · subst h; simpa using ha
      · exact hacc c h

/-- Feeding a whitespace-free word into the split worker only extends its
accumulator. -/
theorem splitWsAux_append (w : List Char) (hw : ∀ c ∈ w, c.isWhitespace = false) :
    ∀ l acc, splitWsAux (w ++ l) acc = splitWsAux l (w.reverse ++ acc) := by
  induction w with
  | nil => intro l acc; simp
  | cons a t ih =>
    intro l acc
    have ha : a.isWhitespace = false := hw a (by simp)
    rw [List.cons_append, splitWsAux, if_neg (by simp [ha])]
    rw [ih (fun c hc => hw c (by simp [hc])) l (a :: acc)]
    simp

/-- Splitting the single-space join of nonempty whitespace-free words
recovers exactly those words. -/
theorem splitWs_joinWords (ws : List (List Char))
    (h : ∀ w ∈ ws, w ≠ [] ∧ ∀ c ∈ w, c.isWhitespace = false) :
    splitWs (joinWords ws) = ws := by
  induction ws with
  | nil => rfl
  | cons w ws ih =>
    obtain ⟨hne, hchars⟩ := h w (by simp)
    cases ws with
    | nil =>
      rw [joinWords, splitWs, show w = w ++ [] by simp, splitWsAux_append w hchars [] []]
      rw [splitWsAux, if_neg (by simpa [List.isEmpty_iff] using hne)]
      simp
    | cons w2 ws2 =>
      rw [show joinWords (w :: w2 :: ws2) = w ++ ' ' :: joinWords (w2 :: ws2) from rfl,
        splitWs, splitWsAux_append w hchars _ []]
      rw [splitWsAux, if_pos (by decide),
        if_neg (by simpa [List.isEmpty_iff] using hne)]
      simp only [List.append_nil, List.reverse_reverse]
      rw [show splitWsAux (joinWords (w2 :: ws2)) [] = splitWs (joinWords (w2 :: ws2)) from rfl]
      rw [ih (fun u hu => h u (by simp [hu]))]

/-- Python `" ".join(s.split())` is idempotent at the character-list level. -/
theorem collapseWsChars_idem (l : List Char) :
    collapseWsChars (collapseWsChars l) = collapseWsChars l := by
  unfold collapseWsChars
  rw [splitWs_joinWords (splitWs l) (fun w hw => splitWsAux_words l [] (by simp) w hw)]

/-- Python `" ".join(s.split())` is idempotent. -/
theorem collapseWs_idem (s : String) : collapseWs (collapseWs s) = collapseWs s := by
  simp [collapseWs, collapseWsChars_idem]

/-! ### Field-wise behavior of the normalizer -/

/-- The year step is idempotent: it always lands on an integer or `None`. -/
theorem normYear_idem (y : YearVal) : normYear (normYear y) = normYear y := by
  cases y with
  | vNone => rfl
  | vInt n => rfl
  | vStr s => cases h : pyIntOfString s <;> simp [normYear, h]

/-- The title step is idempotent. -/
theorem normTitle_idem (t : Option String) : normTitle (normTitle t) = normTitle t := by
  cases t with
  | none => rfl
  | some s =>
    by_cases h : s = ""
    · simp [normTitle, h]
    · rw [normTitle, if_neg h]
      by_cases h2 : collapseWs s = ""
      · rw [normTitle, if_pos h2, h2]
      · rw [normTitle, if_neg h2, collapseWs_idem]

/-- The authors step is idempotent whenever any author-list join is already
whitespace-trimmed (for plain strings it is always idempotent). -/
theorem normAuthors_second (a : AuthorsVal)
    (h : ∀ xs, a = .vList xs → pyStrip (joinAuthors xs) = joinAuthors xs) :
    normAuthors (normAuthors a) = normAuthors a := by
  cases a with
  | vNone => rfl
  | vStr s => simp [normAuthors, pyStrip_idem]
  | vList xs => simp [normAuthors, h xs rfl]

/-- The DOI step is idempotent whenever the prefix-stripped DOI is already
trimmed and contains no further occurrence of the resolver prefix. -/
theorem normDoi_second (d : Option String)
    (h : ∀ s, d = some s → s ≠ "" →
      pyStrip (stripDoiResolver (pyLower (pyStrip s)))
          = stripDoiResolver (pyLower (pyStrip s))
        ∧ containsSub doiPat (stripDoiResolver (pyLower (pyStrip s))).data = false) :
    normDoi (normDoi d) = normDoi d := by
  cases d with
  | none => rfl
  | some s =>
    by_cases hs : s = ""
    · simp [normDoi, hs]
    · obtain ⟨h1, h2⟩ := h s rfl hs
      rw [normDoi, if_neg hs]
      by_cases hD : stripDoiResolver (pyLower (pyStrip s)) = ""
      · rw [normDoi, if_pos hD, hD]
      · rw [normDoi, if_neg hD, h1, pyLower_fix_normDoi (pyStrip s)]
        rw [stripDoiResolver, removeDoiPat_of_not_contains _ h2]

/-- C3 counterexample: normalization is not idempotent as claimed.  The
author-list join `", ".join(a for a in authors if a)` does not trim its
entries, but a second pass hits the `str(authors).strip()` branch, so
`{"authors": [" Alice Smith "]}` normalizes to `" Alice Smith "` once and
to `"Alice Smith"` twice. -/
theorem normalize_metadata_not_idempotent :
    normalizeMetadata (normalizeMetadata
      { authors := .vList [" Alice Smith "], year := .vNone, doi := none, title := none })
    ≠ normalizeMetadata
      { authors := .vList [" Alice Smith "], year := .vNone, doi := none, title := none } := by
  decide

/-- C3 (amended): metadata normalization is idempotent on every record whose
author-list join is already whitespace-trimmed and whose prefix-stripped,
lower-cased DOI is whitespace-trimmed and free of further occurrences of the
resolver prefix; the year coercion and title whitespace collapse are
idempotent unconditionally. -/
theorem normalize_metadata_idempotent_on_clean (m : Metadata)
    (hAuth : ∀ xs, m.authors = .vList xs → pyStrip (joinAuthors xs) = joinAuthors xs)
    (hDoi : ∀ s, m.doi = some s → s ≠ "" →
      pyStrip (stripDoiResolver (pyLower (pyStrip s)))
          = stripDoiResolver (pyLower (pyStrip s))
        ∧ containsSub doiPat (stripDoiResolver (pyLower (pyStrip s))).data = false) :
    normalizeMetadata (normalizeMetadata m) = normalizeMetadata m := by
  simp only [normalizeMetadata]
  rw [normAuthors_second _ hAuth, normYear_idem, normDoi_second _ hDoi, normTitle_idem]

/-- Witness for the amended C3 on a concrete record exercising every field:
authors join, year coercion from a string, DOI strip-lower-deprefix, and
title whitespace collapse. -/
theorem normalize_metadata_idempotent_on_clean_witness :
    normalizeMetadata (normalizeMetadata
      { authors := .vList ["Alice Smith", "Bob Jones"], year := .vStr "2012",
        doi := some "https://doi.org/10.1234/ABC",
        title := some "  Varieties   of Capitalism " })
    = normalizeMetadata
      { authors := .vList ["Alice Smith", "Bob Jones"], year := .vStr "2012",
        doi := some "https://doi.org/10.1234/ABC",
        title := some "  Varieties   of Capitalism " } :=
  normalize_metadata_idempotent_on_clean _
    (by intro xs h; injection h with h2; subst h2; decide)
    (by intro s h hs; injection h with h2; subst h2; constructor <;> decide)

/-- C7: metadata normalization is total and never raises: the
exception-explicit embedding always returns `ok` of the pure result, and on
every input the normalized year is an integer or `None` (a failed parse
degrades to `None` via the caught `ValueError`/`TypeError`). -/
theorem normalize_metadata_total (m : Metadata) :
    normalizeMetadataE m = Except.ok (normalizeMetadata m)
    ∧ ((normalizeMetadata m).year = .vNone
        ∨ ∃ n, (normalizeMetadata m).year = .vInt n) := by
  obtain ⟨a, y, d, t⟩ := m
  constructor
  · cases y with
    | vNone => rfl
    | vInt n => rfl
    | vStr s =>
      simp only [normalizeMetadataE, normYearE, pyIntE, normalizeMetadata, normYear]
      cases h : pyIntOfString s <;> simp [h, Except.bind]
  · cases y with
    | vNone => exact Or.inl rfl
    | vInt n => exact Or.inr ⟨n, rfl⟩
    | vStr s =>
      simp only [normalizeMetadata, normYear]
      cases h : pyIntOfString s with
      | none => exact Or.inl (by simp [h])
      | some n => exact Or.inr ⟨n, by simp [h]⟩

/-! ### Retrieval engine -/

/-- Reranked results are truncated to at most `n_results`. -/
theorem rerankResults_length_le (f : String → Int) (r : List Candidate) (n : Nat) :
    (rerankResults f r n).length ≤ n := by
  cases r with
  | nil => simp [rerankResults]
  | cons x xs =>
    simp only [rerankResults, List.length_take]
    exact Nat.min_le_left _ _

/-- Reranked results are sorted descending by the cross-encoder score. -/
theorem rerankResults_sorted (f : String → Int) (r : List Candidate) (n : Nat) :
    (rerankResults f r n).Pairwise (fun a b => f b.doc ≤ f a.doc) := by
  cases r with
  | nil => simp [rerankResults]
  | cons x xs =>
    have hs := @List.sorted_mergeSort Candidate
      (fun a b : Candidate => decide (f b.doc ≤ f a.doc))
      (fun a b c hab hbc => by
        simp only [decide_eq_true_eq] at hab hbc ⊢
        omega)
      (fun a b => by
        simp only [Bool.or_eq_true, decide_eq_true_eq]
        omega)
      (x :: xs)
    have hp : ((x :: xs).mergeSort
        (fun a b => decide (f b.doc ≤ f a.doc))).Pairwise
        (fun a b => f b.doc ≤ f a.doc) :=
      hs.imp (by intro a b hab; simpa using hab)
    exact List.Pairwise.sublist (List.take_sublist n _) hp

/-- C4: with reranking enabled the engine requests
`max(n_results, rerank_top_k)` candidates from the collection (receiving
that many when available), scores each (query, chunk-text) pair with the
cross-encoder, re-sorts descending by that score and returns at most
`n_results`; with reranking disabled it requests exactly `n_results`
candidates and returns them in the vector-distance-derived score order. -/
theorem retrieval_rerank_contract (rerankTopK nResults : Nat)
    (scores : String → Int) (coll : List Candidate)
    (hsorted : coll.Pairwise (fun a b => a.dist ≤ b.dist)) :
    (collectionQuery coll (candidateK true rerankTopK nResults)).length
        = min (max nResults rerankTopK) coll.length
    ∧ (literatureQuery true rerankTopK nResults scores coll).length ≤ nResults
    ∧ (literatureQuery true rerankTopK nResults scores coll).Pairwise
        (fun a b => scores b.doc ≤ scores a.doc)
    ∧ literatureQuery false rerankTopK nResults scores coll
        = collectionQuery coll nResults
    ∧ (literatureQuery false rerankTopK nResults scores coll).Pairwise
        (fun a b => vectorScore b ≤ vectorScore a) := by
  refine ⟨?_, ?_, ?_, rfl, ?_⟩
  · simp [collectionQuery, candidateK, List.length_take]
  · exact rerankResults_length_le scores _ nResults
  · exact rerankResults_sorted scores _ nResults
  · have hsc : coll.Pairwise (fun a b => vectorScore b ≤ vectorScore a) :=
      hsorted.imp (by intro a b hab; simp only [vectorScore]; omega)
    exact List.Pairwise.sublist (List.take_sublist _ _) hsc

/-- Witness for C4 on a concrete two-chunk collection sorted by distance. -/
theorem retrieval_rerank_contract_witness :
    (([⟨"chunk a", "docA", 0⟩, ⟨"chunk b", "docB", 1⟩] :
        List Candidate).Pairwise (fun a b => a.dist ≤ b.dist))
    ∧ ((collectionQuery [⟨"chunk a", "docA", 0⟩, ⟨"chunk b", "docB", 1⟩]
          (candidateK true 3 2)).length = min (max 2 3) 2
      ∧ (literatureQuery true 3 2 (fun s => (s.length : Int))
          [⟨"chunk a", "docA", 0⟩, ⟨"chunk b", "docB", 1⟩]).length ≤ 2
      ∧ (literatureQuery true 3 2 (fun s => (s.length : Int))
          [⟨"chunk a", "docA", 0⟩, ⟨"chunk b", "docB", 1⟩]).Pairwise
          (fun a b => (b.doc.length : Int) ≤ (a.doc.length : Int))
      ∧ literatureQuery false 3 2 (fun s => (s.length : Int))
          [⟨"chunk a", "docA", 0⟩, ⟨"chunk b", "docB", 1⟩]
          = collectionQuery [⟨"chunk a", "docA", 0⟩, ⟨"chunk b", "docB", 1⟩] 2
      ∧ (literatureQuery false 3 2 (fun s => (s.length : Int))
          [⟨"chunk a", "docA", 0⟩, ⟨"chunk b", "docB", 1⟩]).Pairwise
          (fun a b => vectorScore b ≤ vectorScore a)) :=
  ⟨by decide,
    retrieval_rerank_contract 3 2 (fun s => (s.length : Int))
      [⟨"chunk a", "docA", 0⟩, ⟨"chunk b", "docB", 1⟩] (by decide)⟩

/-- C6 counterexample: the claim as stated also covers the embedding
dependency, but `embed_query` (change log line 960) runs outside the `try`
opened at line 967, so an embedding failure propagates out of the retrieval
routine as an error instead of returning a vector-distance-ranked result. -/
theorem search_embedding_failure_propagates :
    literatureQueryFullE (Except.error ()) true 3 2 (Except.ok (fun _ => 0))
      [⟨"chunk a", "docA", 0⟩]
      = Except.error () := rfl

/-- C6 (amended): a search with reranking enabled and a working embedding
never propagates a reranker failure: it always returns `ok`, and when the
cross-encoder dependency fails the result is exactly the
vector-distance-ranked list truncated to `n_results` (degraded mode).  The
embedding dependency is excluded from the guarantee: its failure occurs
before the guarded block and propagates. -/
theorem search_degrades_on_reranker_failure (rerankTopK nResults : Nat)
    (scoreE : Except Unit (String → Int)) (coll : List Candidate) :
    (∃ r, literatureQueryFullE (Except.ok ()) true rerankTopK nResults scoreE coll
        = Except.ok r)
    ∧ (scoreE = Except.error () →
        literatureQueryFullE (Except.ok ()) true rerankTopK nResults scoreE coll
          = Except.ok (collectionQuery coll nResults))
    ∧ literatureQueryFullE (Except.error ()) true rerankTopK nResults scoreE coll
        = Except.error () := by
  refine ⟨?_, ?_, rfl⟩ <;> cases scoreE with
  | ok f =>
    first
    | exact ⟨rerankResults f
        (collectionQuery coll (candidateK true rerankTopK nResults)) nResults, rfl⟩
    | exact fun h => by cases h
  | error e =>
    have hmin : min nResults (max nResults rerankTopK) = nResults :=
      Nat.min_eq_left (Nat.le_max_left _ _)
    first
    | exact ⟨collectionQuery coll nResults, by
        simp [literatureQueryFullE, literatureQueryE, rerankResultsE,
          collectionQuery, candidateK, List.take_take, hmin]⟩
    | exact fun _ => by
        simp [literatureQueryFullE, literatureQueryE, rerankResultsE,
          collectionQuery, candidateK, List.take_take, hmin]

/-- Witness for the amended C6: with a working embedding, a failing
cross-encoder on a concrete collection still yields the vector-ranked
top-k. -/
theorem search_degrades_on_reranker_failure_witness :
    (Except.error () = (Except.error () : Except Unit (String → Int)))
    ∧ literatureQueryFullE (Except.ok ()) true 3 2 (Except.error ())
        [⟨"chunk a", "docA", 0⟩, ⟨"chunk b", "docB", 1⟩]
      = Except.ok (collectionQuery [⟨"chunk a", "docA", 0⟩, ⟨"chunk b", "docB", 1⟩] 2) :=
  ⟨rfl,
    (search_degrades_on_reranker_failure 3 2 (Except.error ())
      [⟨"chunk a", "docA", 0⟩, ⟨"chunk b", "docB", 1⟩]).2.1 rfl⟩

/-! ### Collection isolation -/

/-- Chunks ingested into a collection, unfolded by one operation. -/
theorem ingestedInto_cons (op : IngestOp) (ops : List IngestOp) (n : String) :
    ingestedInto (op :: ops) n
      = (if op.coll == n then op.chunks else []) ++ ingestedInto ops n := by
  by_cases h : op.coll == n <;>
    simp [ingestedInto, List.filter_cons, h]

/-- Everything stored under a collection name was ingested under that name. -/
theorem mem_applyOps (ops : List IngestOp) (n : String) (c : Chunk) :
    c ∈ applyOps ops n → c ∈ ingestedInto ops n := by
  induction ops with
  | nil => intro h; simp [applyOps, emptyStore] at h
  | cons op rest ih =>
    intro h
    rw [applyOps, upsert] at h
    rw [ingestedInto_cons]
    by_cases he : n = op.coll
    · rw [if_pos he] at h
      have hbeq : (op.coll == n) = true := by simp [he]
      rw [hbeq]
      rcases List.mem_append.mp h with h2 | h2
      · exact List.mem_append.mpr (Or.inr (ih h2))
      · exact List.mem_append.mpr (Or.inl (by simpa using h2))
    · rw [if_neg he] at h
      have hbeq : (op.coll == n) = false := by
        simp only [beq_eq_false_iff_ne, ne_eq]
        exact fun hx => he hx.symm
      rw [hbeq]
      simpa using ih h

/-- C1: a query against collection handle `A` returns only chunks ingested
into `A`; consequently, for distinct collections `A ≠ B`, a chunk ingested
into `B` and never into `A` is never returned by a query against `A` — for
any filter and any `k`. -/
theorem collection_query_isolated (ops : List IngestOp) (A B : String)
    (filt : Chunk → Bool) (k : Nat) (c : Chunk) :
    (c ∈ queryColl (applyOps ops) A filt k → c ∈ ingestedInto ops A)
    ∧ (A ≠ B → c ∈ ingestedInto ops B → c ∉ ingestedInto ops A →
        c ∉ queryColl (applyOps ops) A filt k) := by
  have main : c ∈ queryColl (applyOps ops) A filt k → c ∈ ingestedInto ops A := by
    intro h
    exact mem_applyOps ops A c (List.mem_of_mem_filter (List.mem_of_mem_take h))
  exact ⟨main, fun _ _ hA hq => hA (main hq)⟩

/-- Witness for C1: two job collections; the chunk ingested into `job_B`
does not appear in a query against `job_A`. -/
theorem collection_query_isolated_witness :
    ("job_A" ≠ "job_B"
      ∧ (⟨"docB", "text b", 0⟩ : Chunk) ∈ ingestedInto
          [⟨"job_A", [⟨"docA", "text a", 0⟩]⟩, ⟨"job_B", [⟨"docB", "text b", 0⟩]⟩] "job_B"
      ∧ (⟨"docB", "text b", 0⟩ : Chunk) ∉ ingestedInto
          [⟨"job_A", [⟨"docA", "text a", 0⟩]⟩, ⟨"job_B", [⟨"docB", "text b", 0⟩]⟩] "job_A")
    ∧ (⟨"docB", "text b", 0⟩ : Chunk) ∉ queryColl
        (applyOps [⟨"job_A", [⟨"docA", "text a", 0⟩]⟩, ⟨"job_B", [⟨"docB", "text b", 0⟩]⟩])
        "job_A" (fun _ => true) 5 :=
  ⟨⟨by decide, by decide, by decide⟩,
    (collection_query_isolated
      [⟨"job_A", [⟨"docA", "text a", 0⟩]⟩, ⟨"job_B", [⟨"docB", "text b", 0⟩]⟩]
      "job_A" "job_B" (fun _ => true) 5 ⟨"docB", "text b", 0⟩).2
      (by decide) (by decide) (by decide)⟩

/-! ### Agentic controller -/

/-- The last step of a round followed by a retry and a continuation is the
last step of the continuation. -/
theorem last_of_round_append (x : AgenticStep) (rec : List AgenticStep)
    (v : AgenticStep) (h : rec.getLast? = some v) :
    ([AgenticStep.retrieveT, AgenticStep.generateT, AgenticStep.evaluateT]
        ++ x :: rec).getLast? = some v := by
  have hsplit : [AgenticStep.retrieveT, AgenticStep.generateT, AgenticStep.evaluateT]
      ++ x :: rec
      = ([AgenticStep.retrieveT, AgenticStep.generateT, AgenticStep.evaluateT]
          ++ [x]) ++ rec := by simp
  rw [hsplit, List.getLast?_append, h]
  rfl

/-- Every agentic loop trace ends in Done or Fail, for any budgets. -/
theorem agenticLoop_terminal (cfg : AgenticConfig) (env : AgenticEnv) :
    ∀ rb gb ra ga,
      (agenticLoop cfg env ra ga rb gb).getLast? = some AgenticStep.doneT
      ∨ (agenticLoop cfg env ra ga rb gb).getLast? = some AgenticStep.failT := by
  intro rb
  induction rb with
  | zero =>
    intro gb
    induction gb with
    | zero =>
      intro ra ga
      rw [agenticLoop]
      split_ifs <;> simp
    | succ g ihg =>
      intro ra ga
      rw [agenticLoop]
      split_ifs with h1 h2
      · right; simp
      · rcases ihg ra (ga + 1) with h | h
        · exact Or.inl (last_of_round_append _ _ _ h)
        · exact Or.inr (last_of_round_append _ _ _ h)
      · left; simp
  | succ r ihr =>
    intro gb
    induction gb with
    | zero =>
      intro ra ga
      rw [agenticLoop]
      split_ifs with h1 h2
      · rcases ihr 0 (ra + 1) ga with h | h
        · exact Or.inl (last_of_round_append _ _ _ h)
        · exact Or.inr (last_of_round_append _ _ _ h)
      · right; simp
      · left; simp
    | succ g ihg =>
      intro ra ga
      rw [agenticLoop]
      split_ifs with h1 h2
      · rcases ihr (g + 1) (ra + 1) ga with h | h
        · exact Or.inl (last_of_round_append _ _ _ h)
        · exact Or.inr (last_of_round_append _ _ _ h)
      · rcases ihg ra (ga + 1) with h | h
        · exact Or.inl (last_of_round_append _ _ _ h)
        · exact Or.inr (last_of_round_append _ _ _ h)
      · left; simp

/-- The agentic loop trace length is bounded by the budgets. -/
theorem agenticLoop_length (cfg : AgenticConfig) (env : AgenticEnv) :
    ∀ rb gb ra ga, (agenticLoop cfg env ra ga rb gb).length ≤ 4 * (1 + rb + gb) := by
  intro rb
  induction rb with
  | zero =>
    intro gb
    induction gb with
    | zero =>
      intro ra ga
      rw [agenticLoop]
      split_ifs <;> simp
    | succ g ihg =>
      intro ra ga
      rw [agenticLoop]
      split_ifs with h1 h2 <;>
        simp only [List.length_append, List.length_cons, Nat.succ_eq_add_one]
      · simp
      · have := ihg ra (ga + 1)
        simp only [List.length_cons, List.length_nil, Nat.succ_eq_add_one] at this ⊢
        omega
      · simp
  | succ r ihr =>
    intro gb
    induction gb with
    | zero =>
      intro ra ga
      rw [agenticLoop]
      split_ifs with h1 h2 <;>
        simp only [List.length_append, List.length_cons, Nat.succ_eq_add_one]
      · have := ihr 0 (ra + 1) ga
        simp only [List.length_cons, List.length_nil, Nat.succ_eq_add_one] at this ⊢
        omega
      · simp
      · simp
    | succ g ihg =>
      intro ra ga
      rw [agenticLoop]
      split_ifs with h1 h2 <;>
        simp only [List.length_append, List.length_cons, Nat.succ_eq_add_one]
      · have := ihr (g + 1) (ra + 1) ga
        simp only [List.length_cons, List.length_nil, Nat.succ_eq_add_one] at this ⊢
        omega
      · have := ihg ra (ga + 1)
        simp only [List.length_cons, List.length_nil, Nat.succ_eq_add_one] at this ⊢
        omega
      · simp
        omega

/-- With the retrieval budget exhausted, no further RetryRetrieve occurs. -/
theorem agenticLoop_count_zero (cfg : AgenticConfig) (env : AgenticEnv) :
    ∀ gb ra ga,
      (agenticLoop cfg env ra ga 0 gb).count AgenticStep.retryRetrieveT = 0 := by
  intro gb
  induction gb with
  | zero =>
    intro ra ga
    rw [agenticLoop]
    split_ifs <;> simp [List.count_append, List.count_cons]
  | succ g ihg =>
    intro ra ga
    rw [agenticLoop]
    split_ifs <;> simp [List.count_append, List.count_cons, ihg ra (ga + 1)]

/-- With retrieval budget 1 and an insufficient first retrieval, the loop
performs exactly one RetryRetrieve. -/
theorem agenticLoop_insufficient_succ (cfg : AgenticConfig) (env : AgenticEnv)
    (ra ga r2 gb : Nat) (hins : env.retrievalScore ra < cfg.evaluationSufficient) :
    agenticLoop cfg env ra ga (r2 + 1) gb
      = [AgenticStep.retrieveT, AgenticStep.generateT, AgenticStep.evaluateT]
        ++ AgenticStep.retryRetrieveT :: agenticLoop cfg env (ra + 1) ga r2 gb := by
  rw [agenticLoop.eq_def]
  simp [hins]

/-- With retrieval budget 1 and an insufficient first retrieval, the loop
performs exactly one RetryRetrieve. -/
theorem agenticLoop_count_one (cfg : AgenticConfig) (env : AgenticEnv)
    (hins : env.retrievalScore 0 < cfg.evaluationSufficient) :
    ∀ gb ga, (agenticLoop cfg env 0 ga 1 gb).count AgenticStep.retryRetrieveT = 1 := by
  intro gb ga
  rw [show (1 : Nat) = 0 + 1 from rfl,
    agenticLoop_insufficient_succ cfg env 0 ga 0 gb hins]
  simp [List.count_append, List.count_cons, agenticLoop_count_zero]

/-- C2: for every configuration and environment the Agentic Synthesis
Controller run ends in a terminal Done or Fail transition within a step
count bounded by the configured budgets; and when the first retrieval is
insufficient and the retrieval-retry budget is 1, the run performs exactly
one RetryRetrieve transition and still reaches a terminal state. -/
theorem agentic_bounded_termination (cfg : AgenticConfig) (env : AgenticEnv) :
    ((agenticRun cfg env).getLast? = some AgenticStep.doneT
      ∨ (agenticRun cfg env).getLast? = some AgenticStep.failT)
    ∧ (agenticRun cfg env).length
        ≤ 1 + 4 * (1 + cfg.maxRetrievalRetries + cfg.maxRegenerationRetries)
    ∧ (env.retrievalScore 0 < cfg.evaluationSufficient →
        cfg.maxRetrievalRetries = 1 →
        (agenticRun cfg env).count AgenticStep.retryRetrieveT = 1
        ∧ ((agenticRun cfg env).getLast? = some AgenticStep.doneT
            ∨ (agenticRun cfg env).getLast? = some AgenticStep.failT)) := by
  have hterm := agenticLoop_terminal cfg env cfg.maxRetrievalRetries
    cfg.maxRegenerationRetries 0 0
  have hlast : (agenticRun cfg env).getLast? = some AgenticStep.doneT
      ∨ (agenticRun cfg env).getLast? = some AgenticStep.failT := by
    have hrun : agenticRun cfg env
        = [AgenticStep.classifyT]
          ++ agenticLoop cfg env 0 0 cfg.maxRetrievalRetries
              cfg.maxRegenerationRetries := rfl
    rcases hterm with h | h
    · left; rw [hrun, List.getLast?_append, h]; rfl
    · right; rw [hrun, List.getLast?_append, h]; rfl
  refine ⟨hlast, ?_, fun hins hbudget => ⟨?_, hlast⟩⟩
  · have := agenticLoop_length cfg env cfg.maxRetrievalRetries
      cfg.maxRegenerationRetries 0 0
    simp only [agenticRun, List.length_cons]
    omega
  · simp only [agenticRun, List.count_cons]
    rw [hbudget] at *
    simp [agenticLoop_count_one cfg env hins]

/-- Witness for C2: a configuration with retrieval budget 1 and an
environment whose retrievals are never sufficiently grounded — the run
performs exactly one RetryRetrieve and terminates. -/
theorem agentic_bounded_termination_witness :
    ((⟨fun _ => 0, fun _ _ => 10⟩ : AgenticEnv).retrievalScore 0
        < (⟨1, 1, 5, 5⟩ : AgenticConfig).evaluationSufficient)
    ∧ (⟨1, 1, 5, 5⟩ : AgenticConfig).maxRetrievalRetries = 1
    ∧ ((agenticRun ⟨1, 1, 5, 5⟩
          ⟨fun _ => 0, fun _ _ => 10⟩).count AgenticStep.retryRetrieveT = 1
        ∧ ((agenticRun ⟨1, 1, 5, 5⟩
              ⟨fun _ => 0, fun _ _ => 10⟩).getLast? = some AgenticStep.doneT
          ∨ (agenticRun ⟨1, 1, 5, 5⟩
              ⟨fun _ => 0, fun _ _ => 10⟩).getLast? = some AgenticStep.failT)) :=
  ⟨by decide, rfl,
    (agentic_bounded_termination ⟨1, 1, 5, 5⟩ ⟨fun _ => 0, fun _ _ => 10⟩).2.2
      (by decide) rfl⟩

/-! ### Citation verifier -/

/-- C8: whenever the (author substring, year) pair resolves to zero or more
than one registered document, or the resolved document has no PageIndex
entry for the claimed page, the verifier reports `exists=false` and carries
no substitute citation — it never fixes the claimed citation. -/
theorem verify_reports_not_found (reg : Registry) (author : String) (year : Int)
    (page : Nat)
    (h : (reg.docs.filter (docMatches author year)).length ≠ 1
      ∨ ∀ d, reg.docs.filter (docMatches author year) = [d] →
          lookupPage reg.pages d.docId page = none) :
    (verifyCitation reg author year page).found = false
    ∧ (verifyCitation reg author year page).citation = "" := by
  rcases hm : reg.docs.filter (docMatches author year) with _ | ⟨d, _ | ⟨d2, rest⟩⟩
  · simp [verifyCitation, hm]
  · rcases h with h | h
    · exact absurd (by rw [hm]; rfl) h
    · have hl := h d hm
      simp [verifyCitation, hm, hl]
  · simp [verifyCitation, hm]

/-- Witness for C8 at the spec's end-to-end scenario 3:
`verify("Thelen", 2012, 99)` (page out of range) reports `exists=false`. -/
theorem verify_reports_not_found_witness :
    ((thelenRegistry.docs.filter (docMatches "Thelen" 2012)).length ≠ 1
      ∨ ∀ d, thelenRegistry.docs.filter (docMatches "Thelen" 2012) = [d] →
          lookupPage thelenRegistry.pages d.docId 99 = none)
    ∧ (verifyCitation thelenRegistry "Thelen" 2012 99).found = false
    ∧ (verifyCitation thelenRegistry "Thelen" 2012 99).citation = "" := by
  have hpages : ∀ d, thelenRegistry.docs.filter (docMatches "Thelen" 2012) = [d] →
      lookupPage thelenRegistry.pages d.docId 99 = none := by
    intro d hd
    have hf : thelenRegistry.docs.filter (docMatches "Thelen" 2012) = [thelenDoc] := by
      decide
    rw [hf] at hd
    have hde : thelenDoc = d := (List.cons.injEq _ _ _ _).mp hd |>.1
    rw [← hde]
    decide
  exact ⟨Or.inr hpages,
    verify_reports_not_found thelenRegistry "Thelen" 2012 99 (Or.inr hpages)⟩

/-! ### Durable task tracker -/

/-- C9: updating a task's record in the durable table yields exactly the new
persisted snapshot with its progress clamped to `max old new` — so a `get`
(from any process reading the same durable table, before or after a
restart) sees the latest snapshot, and the stored progress never
decreases across an update. -/
theorem task_update_monotonic_durable (db : TaskDB) (id : Nat) (st : TaskStatus)
    (p : Nat) (msg : String) (rec : TaskRecord)
    (h : getTask db id = some rec) :
    getTask (updateTask db id st p msg) id
      = some { status := st, progress := max rec.progress p, message := msg }
    ∧ rec.progress ≤ max rec.progress p := by
  refine ⟨?_, Nat.le_max_left _ _⟩
  induction db with
  | nil => simp [getTask] at h
  | cons e rest ih =>
    by_cases he : (e.1 == id) = true
    · have he1 : e.1 = id := by simpa using he
      have hrec : e.2 = rec := by
        simp only [getTask, List.find?_cons, he, Option.map_some] at h
        exact Option.some.inj h
      have hupd : updateTask (e :: rest) id st p msg
          = (e.1, { status := st, progress := max e.2.progress p, message := msg })
            :: updateTask rest id st p msg := by
        simp [updateTask, he1]
      rw [hupd]
      simp [getTask, List.find?_cons, he, hrec]
    · have he1 : ¬ e.1 = id := by simpa using he
      have hstep : getTask (e :: rest) id = getTask rest id := by
        simp [getTask, List.find?_cons, he]
      rw [hstep] at h
      have hmap : updateTask (e :: rest) id st p msg
          = e :: updateTask rest id st p msg := by
        simp [updateTask, he1]
      rw [hmap]
      have hstep2 : getTask (e :: updateTask rest id st p msg) id
          = getTask (updateTask rest id st p msg) id := by
        simp [getTask, List.find?_cons, he]
      rw [hstep2]
      exact ih h

/-- Witness for C9: a created task at 30 percent progress updated to 55
percent yields the new snapshot with non-decreasing progress. -/
theorem task_update_monotonic_durable_witness :
    getTask (updateTask (createTask [] 7) 7 .running 30 "parsing")
        7 = some { status := .running, progress := 30, message := "parsing" }
    ∧ (getTask (updateTask (updateTask (createTask [] 7) 7 .running 30 "parsing")
          7 .running 55 "embedding") 7
        = some { status := .running, progress := max 30 55, message := "embedding" }
      ∧ (30 : Nat) ≤ max 30 55) :=
  ⟨by decide,
    task_update_monotonic_durable (updateTask (createTask [] 7) 7 .running 30 "parsing")
      7 .running 55 "embedding" { status := .running, progress := 30, message := "parsing" }
      (by decide)⟩

end Retrievo
